import Mathlib

set_option maxRecDepth 100000

/-!
Verification development for the `url-cleaner` HTML cleaning pipeline
(`_url_cleaner.py`).  The pipeline's data model and operations are shallowly
embedded: BeautifulSoup trees become the inductive `Node`, the pure cleaning
functions become Lean functions over `Node`, and the wall clock read by the
metadata injector becomes an explicit `now : String` argument.  Python string
operations are modelled by executable functions over `List Char` (ASCII
semantics); float score comparisons are modelled by exact cross-multiplication
over `Nat`.
-/

namespace UrlCleaner

/-- Whitespace characters, modelling Python's whitespace class for the string
operations used by the script (ASCII subset). -/
def isWsCh (c : Char) : Bool :=
  c = ' ' || c = '\t' || c = '\n' || c = '\r' || c = '\x0b' || c = '\x0c'

/-- Lower-casing of a string, modelling `str.lower()` (ASCII semantics). -/
def lowerStr (s : String) : String := ⟨s.data.map Char.toLower⟩

/-- Strip leading and trailing whitespace from a character list. -/
def trimChars (cs : List Char) : List Char :=
  ((cs.dropWhile isWsCh).reverse.dropWhile isWsCh).reverse

/-- Models Python `str.strip()` with no argument. -/
def trimStr (s : String) : String := ⟨trimChars s.data⟩

/-- Auxiliary for whitespace collapsing: the flag records whether the previous
character belonged to a whitespace run already replaced by one space. -/
def collapseAux : Bool → List Char → List Char
  | _, [] => []
  | inWs, c :: rest =>
    if isWsCh c then
      if inWs then collapseAux true rest else ' ' :: collapseAux true rest
    else c :: collapseAux false rest

/-- Models `re.sub(r"\s+", " ", s)`: every whitespace run becomes one space. -/
def collapseWs (s : String) : String := ⟨collapseAux false s.data⟩

/-- Auxiliary for whitespace tokenisation; `acc` is the current token reversed. -/
def tokenizeWsAux : List Char → List Char → List String
  | acc, [] => if acc.isEmpty then [] else [⟨acc.reverse⟩]
  | acc, c :: rest =>
    if isWsCh c then
      if acc.isEmpty then tokenizeWsAux [] rest
      else String.mk acc.reverse :: tokenizeWsAux [] rest
    else tokenizeWsAux (c :: acc) rest

/-- Models Python `str.split()` with no argument: whitespace-separated tokens,
no empty tokens.  Also models BeautifulSoup's tokenisation of the multi-valued
`class` attribute. -/
def tokenizeWs (s : String) : List String := tokenizeWsAux [] s.data

/-- Character-level prefix test. -/
def leadsChars : List Char → List Char → Bool
  | [], _ => true
  | _ :: _, [] => false
  | a :: as, b :: bs => a = b && leadsChars as bs

/-- Substring occurrence test on character lists. -/
def hasSubChars (p : List Char) : List Char → Bool
  | [] => leadsChars p []
  | s@(_ :: rest) => leadsChars p s || hasSubChars p rest

/-- Models Python `pat in hay` on strings (substring containment). -/
def hasSub (hay pat : String) : Bool := hasSubChars pat.data hay.data

/-- Models `str.startswith` / a string prefix test. -/
def strStartsWith (s p : String) : Bool := leadsChars p.data s.data

/-- Join a list of strings with a separator, modelling `separator.join(...)`. -/
def joinSep (sep : String) : List String → String
  | [] => ""
  | [s] => s
  | s :: rest => s ++ sep ++ joinSep sep rest

/-- The parsed HTML tree: a BeautifulSoup `Tag` becomes `element` (tag name,
attribute list in document order with unique keys, children in document
order); a `NavigableString` becomes `text`.  Comments and processing
instructions are dropped at parse time and have no constructor.  The
BeautifulSoup document object itself is modelled as an element whose tag is
`[document]`, matching its `.name` in bs4. -/
inductive Node where
  | element (tag : String) (attrs : List (String × String)) (children : List Node)
  | text (s : String)

mutual

/-- Structural equality test on nodes (used where the source compares trees). -/
def nodeBEq : Node → Node → Bool
  | .text a, .text b => a = b
  | .element t1 a1 c1, .element t2 a2 c2 => t1 = t2 && a1 = a2 && nodesBEq c1 c2
  | _, _ => false

/-- Structural equality test on node lists. -/
def nodesBEq : List Node → List Node → Bool
  | [], [] => true
  | a :: as, b :: bs => nodeBEq a b && nodesBEq as bs
  | _, _ => false

end

/-- Is this node an element (a bs4 `Tag`)? -/
def isElem : Node → Bool
  | .element _ _ _ => true
  | .text _ => false

/-- Does this node have the given tag name? -/
def tagIs (t : String) : Node → Bool
  | .element tg _ _ => tg = t
  | .text _ => false

/-- The children of a node (empty for text nodes). -/
def nodeChildren : Node → List Node
  | .element _ _ cs => cs
  | .text _ => []

/-- The attribute list of a node (empty for text nodes). -/
def nodeAttrs : Node → List (String × String)
  | .element _ a _ => a
  | .text _ => []

/-- Models `element.get(name)`: first attribute with that exact key. -/
def getAttr (n : Node) (name : String) : Option String :=
  ((nodeAttrs n).find? (fun av => av.1 = name)).map (·.2)

mutual

/-- All text strings below a node in document order, modelling `.strings`. -/
def stringsOf : Node → List String
  | .text s => [s]
  | .element _ _ cs => stringsOfL cs

/-- `stringsOf` over a list of children. -/
def stringsOfL : List Node → List String
  | [] => []
  | c :: cs => stringsOf c ++ stringsOfL cs

end

/-- Models `element.get_text(sep, strip=True)`: strip each descendant string,
drop the ones that become empty, join with `sep`. -/
def getTextSep (n : Node) (sep : String) : String :=
  joinSep sep (((stringsOf n).map trimStr).filter (fun s => s ≠ ""))

/-- Models `element.get_text(strip=True)` (empty separator). -/
def getTextStrip (n : Node) : String := getTextSep n ""

mutual

/-- All descendant elements of a node in pre-order, excluding the node itself,
modelling `find_all(True)` / the search space of `find_all` and `select`. -/
def descElems : Node → List Node
  | .text _ => []
  | .element _ _ cs => descElemsL cs

/-- `descElems` over a list of children, each child included if an element. -/
def descElemsL : List Node → List Node
  | [] => []
  | c :: cs =>
    (match c with
     | .element _ _ _ => [c]
     | .text _ => []) ++ descElems c ++ descElemsL cs

end

/-- Models `n.find_all(t)`: descendant elements with the given tag name. -/
def findAllTag (n : Node) (t : String) : List Node :=
  (descElems n).filter (tagIs t)

/-- Models `n.find(t)` for a tag name: first matching descendant element. -/
def findFirstTag (n : Node) (t : String) : Option Node :=
  (findAllTag n t).head?

mutual

/-- All descendant elements with their positions (paths of child indices from
the root), pre-order, excluding the root itself.  Paths model bs4 object
identity for the candidate bookkeeping in `extract_main_content`. -/
def descWithPathsL : List Node → List Nat → Nat → List (List Nat × Node)
  | [], _, _ => []
  | c :: cs, p, i =>
    (match c with
     | .element _ _ _ => [(p ++ [i], c)]
     | .text _ => []) ++ descWithPathsAt c (p ++ [i]) ++ descWithPathsL cs p (i + 1)

/-- `descWithPathsL` entered at a node with a given path. -/
def descWithPathsAt : Node → List Nat → List (List Nat × Node)
  | .text _, _ => []
  | .element _ _ cs, p => descWithPathsL cs p 0

end

/-- Descendant elements of the soup with their paths, pre-order. -/
def descWithPaths (soup : Node) : List (List Nat × Node) :=
  descWithPathsAt soup []

/-- `LLM_OPTIMIZED_TAGS`: the allow-listed tag set. -/
def llmOptimizedTags : List String :=
  ["html", "head", "title", "body",
   "main", "article", "section",
   "h1", "h2", "h3", "h4", "h5", "h6", "p", "br", "hr",
   "ul", "ol", "li", "dl", "dt", "dd",
   "strong", "em", "b", "i", "code", "pre", "mark",
   "blockquote", "q", "cite",
   "table", "caption", "thead", "tbody", "tr", "th", "td",
   "a"]

/-- `ATTRIBUTE_ALLOW_LIST`: per-tag permitted attribute names. -/
def attributeAllowList : List (String × List String) :=
  [("a", ["href"]),
   ("pre", ["class"]),
   ("code", ["class"]),
   ("th", ["scope"]),
   ("td", ["colspan", "rowspan"]),
   ("html", ["lang"]),
   ("blockquote", ["cite"]),
   ("q", ["cite"])]

/-- Models `ATTRIBUTE_ALLOW_LIST.get(tag_name, set())`. -/
def attrAllowFor (tagName : String) : List String :=
  ((attributeAllowList.find? (fun e => e.1 = tagName)).map (·.2)).getD []

/-- `NON_CONTENT_TAGS`: tags decomposed wholesale by `strip_undesirables`. -/
def nonContentTags : List String :=
  ["script", "style", "link", "meta",
   "img", "picture", "figure", "figcaption", "svg", "canvas", "video",
   "audio", "iframe",
   "nav", "aside", "header", "footer",
   "form", "input", "button", "select", "textarea", "label",
   "noscript", "template", "map", "area", "object", "embed", "source"]

/-- `NON_CONTENT_PATTERNS`: per-attribute noise substrings, in dict order. -/
def nonContentPatterns : List (String × List String) :=
  [("class",
    ["nav", "menu", "sidebar", "footer", "header", "banner", "cookie", "modal",
     "popup", "social", "comment", "related", "widget", "ads", "pagination",
     "breadcrumb", "toolbar", "utility", "skip-link", "site-header",
     "site-footer", "advertisement", "promo", "subnav", "flyout", "dropdown",
     "toc", "index"]),
   ("id",
    ["navigation", "menu", "sidebar", "footer", "header", "banner", "cookie",
     "modal", "popup", "social", "comments", "related", "widget", "ads",
     "pagination", "breadcrumbs", "toolbar", "utilities", "skip", "siteheader",
     "sitefooter", "advert", "promo", "subnav", "flyout", "dropdown", "toc",
     "index"]),
   ("role",
    ["navigation", "banner", "contentinfo", "complementary", "search", "form",
     "dialog", "alertdialog", "menubar", "toolbar", "directory", "log",
     "status"])]

/-- `BOILERPLATE_PHRASES`. -/
def boilerplatePhrases : List String :=
  ["cookie preferences", "privacy policy", "terms of service", "terms of use",
   "all rights reserved", "related articles", "share this", "follow us",
   "skip to main content", "advertisement", "subscribe now", "sign up",
   "log in", "register", "download pdf", "print page", "add to cart",
   "view cart", "customer service", "contact us", "site map", "about us",
   "careers"]

/-- `MIN_MAIN_CONTENT_LENGTH`. -/
def minMainContentLength : Nat := 150

/-- `MIN_CANDIDATE_TEXT_LENGTH`. -/
def minCandidateTextLength : Nat := 100

/-- `MAX_BOILERPLATE_PHRASE_LENGTH`. -/
def maxBoilerplatePhraseLength : Nat := 250

/-- The tag list hard-coded at the top of `is_likely_boilerplate`. -/
def boilerTagList : List String :=
  ["nav", "aside", "header", "footer", "form", "select", "option", "button",
   "input", "textarea", "label"]

/-- The attribute-pattern rule of `is_likely_boilerplate`: for each of
class/id/role, tokenise (class is multi-valued in bs4), lower-case, and test
each noise pattern for substring occurrence in each value.  A missing or
empty (falsy) attribute is skipped. -/
def attrPatternHit (n : Node) : Bool :=
  nonContentPatterns.any fun ap =>
    match getAttr n ap.1 with
    | none => false
    | some v =>
      if v = "" then false
      else
        let values := if ap.1 = "class" then tokenizeWs v else [v]
        let valuesLower := values.map lowerStr
        ap.2.any fun pat => valuesLower.any fun val => hasSub val pat

/-- Models `is_likely_boilerplate` (lines 160-201).  Text nodes return false
(`if not isinstance(element, Tag)`).  The link-density comparison
`link_text_length / text_length > 0.65` is modelled exactly by
cross-multiplication; `text_length < MAX_BOILERPLATE_PHRASE_LENGTH * 2`
is the literal 500 bound of the source. -/
def isLikelyBoilerplate : Node → Bool
  | .text _ => false
  | .element tag attrs cs =>
    let n := Node.element tag attrs cs
    let tagName := lowerStr tag
    if boilerTagList.contains tagName then true
    else if attrPatternHit n then true
    else
      let textContent := getTextSep n " "
      let textLength := textContent.length
      let linkCount := (cs.filter (tagIs "a")).length
      if textLength = 0 && linkCount = 0 && (cs.filter isElem).isEmpty then
        true
      else if linkCount > 2 &&
          (let linkTextLength :=
            (((findAllTag n "a").map (fun a => (getTextStrip a).length)).sum)
           textLength > 0 && linkTextLength * 100 > textLength * 65 &&
             textLength < maxBoilerplatePhraseLength * 2) then
        true
      else
        let textLower := lowerStr textContent
        if textLength > 0 && textLength < maxBoilerplatePhraseLength &&
            boilerplatePhrases.any (fun ph => hasSub textLower ph) then
          true
        else false

/-- The CSS selector forms used by `extract_main_content`'s Strategy 1. -/
inductive Sel where
  | tagSel (t : String)
  | roleMain
  | idSel (v : String)
  | classSel (v : String)

/-- Does a node match a selector?  A class selector matches a whitespace
token of the class attribute; `[role="main"]` and id selectors match the
exact attribute value. -/
def selMatches : Sel → Node → Bool
  | .tagSel t, n => tagIs t n
  | .roleMain, n => getAttr n "role" = some "main"
  | .idSel v, n => getAttr n "id" = some v
  | .classSel v, n =>
    match getAttr n "class" with
    | some cv => (tokenizeWs cv).contains v
    | none => false

/-- The ordered selector list of `extract_main_content` (line 208). -/
def selectorList : List Sel :=
  [.tagSel "main", .tagSel "article", .roleMain, .idSel "content",
   .idSel "main-content", .classSel "content", .classSel "main-content",
   .idSel "bodyContent", .classSel "post-content", .classSel "entry-content",
   .classSel "article-body", .classSel "story-content"]

/-- Models `soup.select_one(selector)`: first matching descendant element in
document order. -/
def selectOne (sel : Sel) (soup : Node) : Option Node :=
  ((descElems soup).filter (selMatches sel)).head?

/-- One iteration of the Strategy 1 loop (lines 210-215): the selector's
first match is accepted only if its stripped text length is strictly greater
than `MIN_MAIN_CONTENT_LENGTH` and it is not classified boilerplate. -/
def phaseAStep (soup : Node) (sel : Sel) : Option Node :=
  match selectOne sel soup with
  | some cand =>
    if minMainContentLength < (getTextStrip cand).length &&
        !(isLikelyBoilerplate cand) then
      some cand
    else none
  | none => none

/-- Strategy 1 of `extract_main_content`: first selector whose first match
passes the acceptance test wins. -/
def phaseA (soup : Node) : Option Node :=
  selectorList.findSome? (phaseAStep soup)

/-- A density candidate of Strategy 2: position path (modelling bs4 object
identity), the node, and its exact score `num / den` where `num` is the
stripped text length and `den` is `1 + child_penalty`. -/
structure CandEntry where
  path : List Nat
  node : Node
  num : Nat
  den : Nat

/-- Nat-list prefix test (paths). -/
def leadsNat : List Nat → List Nat → Bool
  | [], _ => true
  | _ :: _, [] => false
  | a :: as, b :: bs => a = b && leadsNat as bs

/-- Is `p` the path of a proper ancestor of the node at path `q`?  This
models the bs4 relations used in the candidate bookkeeping: the parent walk
`parent in candidates` and the containment tests `x.find(y)`. -/
def properAncestor (p q : List Nat) : Bool :=
  p.length < q.length && leadsNat p q

/-- Models the float comparison `a_score > b_score * 1.1` by exact rational
cross-multiplication (idealising the binary float 1.1). -/
def sGtRatio (a b : CandEntry) : Bool :=
  a.num * b.den * 10 > b.num * a.den * 11

/-- Models the float comparison `a_score < b_score * 1.1`. -/
def sLtRatio (a b : CandEntry) : Bool :=
  a.num * b.den * 10 < b.num * a.den * 11

/-- Models the float comparison `a_score > b_score` (used by `max`). -/
def sGt (a b : CandEntry) : Bool :=
  a.num * b.den > b.num * a.den

/-- One Strategy 2 bookkeeping step for an eligible container (lines
235-264): skip it when a strictly-better (ratio 1.1) ancestor candidate is
already retained; otherwise scan the retained candidates — a retained
candidate wrapped by the container blocks it when similar or better, and is
marked for removal when the container is significantly better; a retained
ancestor blocks it when significantly better.  If nothing blocks, apply the
removals and append the container. -/
def stepCand (cands : List CandEntry) (c : CandEntry) : List CandEntry :=
  let nestedInBetter :=
    cands.any fun e => properAncestor e.path c.path && sGtRatio e c
  if nestedInBetter then cands
  else
    let blocked := cands.any fun e =>
      (properAncestor c.path e.path && sLtRatio c e) ||
      (!(properAncestor c.path e.path) && properAncestor e.path c.path &&
        sGtRatio e c)
    if blocked then cands
    else
      (cands.filter fun e =>
        !(properAncestor c.path e.path && !(sLtRatio c e))) ++ [c]

/-- Eligibility filter of the Strategy 2 scan (lines 223-233): the container
must be a div/section/td, not boilerplate, with stripped text length at least
`MIN_CANDIDATE_TEXT_LENGTH`; its score is text length over one plus the
number of direct boilerplate element children. -/
def candEligible (p : List Nat) (n : Node) : Option CandEntry :=
  match n with
  | .element t _ cs =>
    if ["div", "section", "td"].contains t then
      if isLikelyBoilerplate n then none
      else
        let tl := (getTextStrip n).length
        if tl < minCandidateTextLength then none
        else
          let penalty := ((cs.filter isElem).filter isLikelyBoilerplate).length
          some ⟨p, n, tl, 1 + penalty⟩
    else none
  | .text _ => none

/-- The full Strategy 2 scan: fold the bookkeeping step over all descendant
elements in document order. -/
def candScan (soup : Node) : List CandEntry :=
  (descWithPaths soup).foldl
    (fun cands pn =>
      match candEligible pn.1 pn.2 with
      | some c => stepCand cands c
      | none => cands)
    []

/-- Models `max(candidates.items(), key=...)`: first candidate of maximal
score in insertion order (Python's `max` keeps the first maximum). -/
def bestCand : List CandEntry → Option CandEntry
  | [] => none
  | c :: cs => some (cs.foldl (fun b x => if sGt x b then x else b) c)

/-- Models `extract_main_content` (lines 203-273): Strategy 1, then Strategy
2, then the `soup.body or soup` fallback. -/
def extractMainContent (soup : Node) : Node :=
  match phaseA soup with
  | some c => c
  | none =>
    match bestCand (candScan soup) with
    | some c => c.node
    | none =>
      match findFirstTag soup "body" with
      | some b => b
      | none => soup

mutual

/-- Top-down removal of every descendant subtree whose root satisfies `p`,
modelling a `find_all` pass followed by `decompose()` of each match. -/
def removeWhere (p : Node → Bool) : Node → Node
  | .text s => .text s
  | .element t a cs => .element t a (removeWhereL p cs)

/-- `removeWhere` over a list of children. -/
def removeWhereL (p : Node → Bool) : List Node → List Node
  | [] => []
  | c :: cs =>
    (if p c then [] else [removeWhere p c]) ++ removeWhereL p cs

end

/-- Models `find_all(attrs={"hidden": True})`: the attribute is present. -/
def isHiddenAttr (n : Node) : Bool := (getAttr n "hidden").isSome

/-- Models the three `[style*=...]` hidden-style selectors. -/
def isStyleHidden (n : Node) : Bool :=
  match getAttr n "style" with
  | some v =>
    hasSub v "display: none" || hasSub v "display:none" ||
      hasSub v "visibility: hidden"
  | none => false

/-- Models the `aria-hidden="true"` rule: removed only when it has no
stripped text. -/
def isAriaHiddenEmpty (n : Node) : Bool :=
  getAttr n "aria-hidden" = some "true" && getTextStrip n = ""

/-- Does the node's tag belong to `NON_CONTENT_TAGS`? -/
def isNonContentTag : Node → Bool
  | .element t _ _ => nonContentTags.contains t
  | .text _ => false

/-- Models `strip_undesirables` (lines 276-297): comments/PIs are already
absent from the model; then hidden-attribute, hidden-style, empty
aria-hidden, and non-content-tag subtrees are removed in that order. -/
def stripUndesirables (soup : Node) : Node :=
  removeWhere isNonContentTag
    (removeWhere isAriaHiddenEmpty
      (removeWhere isStyleHidden
        (removeWhere isHiddenAttr soup)))

/-- Characters allowed in a URL scheme after the leading letter. -/
def schemeChar (c : Char) : Bool :=
  c.isAlpha || c.isDigit || c = '+' || c = '-' || c = '.'

/-- Auxiliary scheme scanner: accumulates scheme characters up to a colon. -/
def schemeSplitAux : List Char → List Char → Option (String × String)
  | _, [] => none
  | acc, c :: rest =>
    if c = ':' then
      if acc.isEmpty then none else some (⟨acc.reverse⟩, ⟨rest⟩)
    else if schemeChar c then schemeSplitAux (c :: acc) rest
    else none

/-- Split a URL into scheme and remainder, modelling the scheme recognition
of `urllib.parse` (leading letter, then letters, digits, plus, minus or dot,
up to a colon). -/
def schemeSplit (s : String) : Option (String × String) :=
  match s.data with
  | c :: _ => if c.isAlpha then schemeSplitAux [] s.data else none
  | [] => none

/-- Models `urlparse(u).scheme` (lower-cased; empty when no scheme). -/
def urlScheme (s : String) : String :=
  match schemeSplit s with
  | some sc => lowerStr sc.1
  | none => ""

/-- Split an authority-bearing remainder (starting with `//`) into the
authority part (with its `//`) and the path remainder. -/
def splitAfterAuth (rest : String) : String × String :=
  let cs := rest.data.drop 2
  let auth := cs.takeWhile (fun c => !(c = '/' || c = '?' || c = '#'))
  (⟨'/' :: '/' :: auth⟩, ⟨cs.drop auth.length⟩)

/-- Merge a relative reference onto a base path: everything up to and
including the base path's last slash, then the reference (root when the base
path has no slash). -/
def mergePath (bpath rel : String) : String :=
  let pre := (bpath.data.reverse.dropWhile (fun c => c ≠ '/')).reverse
  String.mk (if pre.isEmpty then ['/'] else pre) ++ rel

/-- Resolve a scheme-less relative reference against a scheme-less base
remainder (authority kept, absolute path replaces, relative path merges). -/
def resolveRel (brest rel : String) : String :=
  if strStartsWith brest "//" then
    let ap := splitAfterAuth brest
    if strStartsWith rel "/" then ap.1 ++ rel else ap.1 ++ mergePath ap.2 rel
  else if strStartsWith rel "/" then rel
  else mergePath brest rel

/-- Executable model of `urllib.parse.urljoin` restricted to the behaviour
the script depends on: a reference carrying its own authority or a different
scheme wins outright; otherwise the reference is resolved against the base
(dot-segment, query and fragment handling are not modelled). -/
def urljoin (base url : String) : String :=
  if base = "" then url
  else if url = "" then base
  else
    match schemeSplit url with
    | some sr =>
      if strStartsWith sr.2 "//" then url
      else
        match schemeSplit base with
        | some bsr =>
          if lowerStr sr.1 ≠ lowerStr bsr.1 then url
          else sr.1 ++ ":" ++ resolveRel bsr.2 sr.2
        | none => url
    | none =>
      match schemeSplit base with
      | some bsr => bsr.1 ++ ":" ++ resolveRel bsr.2 url
      | none => resolveRel base url

/-- Models the language-class filter for pre/code `class` attributes: the
first whitespace token whose lower-casing starts with `language-` or
`lang-`. -/
def langClassOf (v : String) : Option String :=
  (tokenizeWs v).find? fun c =>
    strStartsWith (lowerStr c) "language-" || strStartsWith (lowerStr c) "lang-"

/-- Per-attribute policy of `clean_element_recursively` (lines 332-367):
`none` when the attribute is dropped, `some` with the stored key/value
otherwise.  The key keeps its original spelling; the allow-list lookup and
the policy dispatch use the lower-cased key.  An anchor href is resolved
with `urljoin` after stripping and kept only for http/https schemes; a
pre/code class keeps only a language token; any other allowed attribute is
kept when its value is non-empty (the final `if cleaned_value:` truthiness
test). -/
def cleanAttr1 (url tagName : String) (av : String × String) :
    Option (String × String) :=
  let attrLower := lowerStr av.1
  if (attrAllowFor tagName).contains attrLower then
    if tagName = "a" && attrLower = "href" then
      let absoluteHref := urljoin url (trimStr av.2)
      if urlScheme absoluteHref = "http" || urlScheme absoluteHref = "https" then
        if absoluteHref = "" then none else some (av.1, absoluteHref)
      else none
    else if (tagName = "pre" || tagName = "code") && attrLower = "class" then
      match langClassOf av.2 with
      | some lc => some (av.1, lc)
      | none => none
    else if av.2 = "" then none
    else some av
  else none

/-- The attribute-cleaning loop over a source attribute list. -/
def cleanAttrs (url tagName : String) (attrs : List (String × String)) :
    List (String × String) :=
  attrs.filterMap (cleanAttr1 url tagName)

/-- The caller-side fragment splice (lines 374-378): a cleaned child that is
a `div` with no attributes is the temporary wrapper of an unwrapped element,
and its contents are appended in its place; any other child is appended as
is. -/
def spliceOne : Node → List Node
  | .element t a cs =>
    if t = "div" && a.isEmpty then cs else [.element t a cs]
  | .text s => [.text s]

/-- Models `clean_element_recursively` (lines 300-387), reindexed by
remaining gas: `gas = max_depth + 1 - depth`, so the guard `depth >
max_depth` becomes `gas = 0` and every child call decrements the gas.  A
text node is stripped and dropped when empty.  A disallowed element is
unwrapped: its cleaned children are collected in a `div` fragment wrapper
(without splicing nested fragments, exactly as the source does) or dropped
when none survive.  An allowed element is rebuilt with cleaned attributes
and spliced cleaned children, and discarded when its contents are empty
unless the tag is `br`/`hr` — the source checks only `clean_tag.contents`,
not the attributes, and its inner whitespace-only test is vacuous on an
empty contents list. -/
def cleanEl (url : String) : Nat → Node → Option Node
  | 0, _ => none
  | _ + 1, .text s =>
    let t := trimStr s
    if t = "" then none else some (.text t)
  | g + 1, .element tag attrs cs =>
    let tagName := lowerStr tag
    if !(llmOptimizedTags.contains tagName) then
      let kids := (cs.map (cleanEl url g)).filterMap id
      if kids.isEmpty then none else some (.element "div" [] kids)
    else
      let kids := ((cs.map (cleanEl url g)).filterMap id).flatMap spliceOne
      if kids.isEmpty && !(["br", "hr"].contains tagName) then none
      else some (.element tag (cleanAttrs url tagName attrs) kids)

/-- The cleaned-and-spliced children of an allowed element at gas `g + 1`. -/
def cleanKids (url : String) (g : Nat) (cs : List Node) : List Node :=
  ((cs.map (cleanEl url g)).filterMap id).flatMap spliceOne

/-- `clean_element_recursively` with the source's `depth`/`max_depth`
indexing. -/
def cleanElementAt (url : String) (maxDepth depth : Nat) (n : Node) :
    Option Node :=
  cleanEl url (maxDepth + 1 - depth) n

/-- The tags whose direct text children keep their whitespace in
`normalize_text_content` (line 422). -/
def preserveParents : List String := ["pre", "code", "style", "script"]

mutual

/-- The whitespace pass of `normalize_text_content` (lines 419-428): every
text node is collapsed and stripped (and extracted when it becomes empty)
unless its direct parent's tag is pre/code/style/script. -/
def wsPass : Node → Node
  | .text s => .text s
  | .element t a cs => .element t a (wsChildren t cs)

/-- The whitespace pass over the children of an element with tag
`parentTag`. -/
def wsChildren (parentTag : String) : List Node → List Node
  | [] => []
  | .text s :: cs =>
    (if preserveParents.contains parentTag then [Node.text s]
     else
       let stripped := trimStr (collapseWs s)
       if stripped = "" then [] else [Node.text stripped]) ++
      wsChildren parentTag cs
  | .element t a gs :: cs =>
    wsPass (.element t a gs) :: wsChildren parentTag cs

end

/-- The structural-emptiness test of the pruning loop (line 435): a non-void
element with no contents and no attributes.  The extra `get_text` test of
line 437 is implied by empty contents. -/
def isStructurallyEmpty : Node → Bool
  | .element t a cs => !(["br", "hr"].contains t) && cs.isEmpty && a.isEmpty
  | .text _ => false

mutual

/-- One pass of the empty-element pruning loop (lines 432-442).  Because
`find_all` enumerates pre-order and parents precede their children, a single
source pass removes exactly the elements that are empty in the tree the pass
started from; the root (the soup object) is never removed. -/
def prunePass : Node → Node
  | .text s => .text s
  | .element t a cs => .element t a (prunePassL cs)

/-- `prunePass` over a list of children. -/
def prunePassL : List Node → List Node
  | [] => []
  | c :: cs =>
    (if isStructurallyEmpty c then [] else [prunePass c]) ++ prunePassL cs

end

mutual

/-- Number of element nodes in a tree (a fuel bound for the pruning loop). -/
def countElems : Node → Nat
  | .text _ => 0
  | .element _ _ cs => 1 + countElemsL cs

/-- `countElems` over a list of children. -/
def countElemsL : List Node → Nat
  | [] => 0
  | c :: cs => countElems c + countElemsL cs

end

/-- The `while True` of the pruning loop, with fuel: repeat `prunePass` until
a pass removes nothing.  Every effective pass removes at least one element,
so `countElems + 1` passes reach the fixpoint. -/
def pruneFix : Nat → Node → Node
  | 0, n => n
  | f + 1, n =>
    let n2 := prunePass n
    if nodeBEq n2 n then n else pruneFix f n2

/-- The full empty-element pruning of `normalize_text_content`. -/
def pruneEmpties (n : Node) : Node := pruneFix (countElems n + 1) n

/-- Merge `cur` (the later paragraph, already merged rightward) into `prev`
(lines 453-462): a single space is appended first when both paragraphs have
non-empty stripped text, then all of `cur`'s children. -/
def mergeTwoP (prev cur : Node) : Node :=
  match prev with
  | .element t a cs =>
    let sep :=
      if getTextStrip (.element t a cs) ≠ "" && getTextStrip cur ≠ "" then
        [Node.text " "]
      else []
    .element t a (cs ++ sep ++ nodeChildren cur)
  | n => n

/-- The adjacent-paragraph merge restricted to one sibling list, processed
right to left as the source's reverse loop does: a `p` immediately followed
by a `p` with the same attribute list (no intervening node of any kind)
absorbs it.  The source walks the global pre-order `p` list; on trees where
no `p` contains another `p` (every tree the pipeline builds), consecutive
global pairs that pass its `next_sibling` test are exactly the adjacent
sibling pairs. -/
def mergeSibs : List Node → List Node
  | [] => []
  | c :: rest =>
    match mergeSibs rest with
    | [] => [c]
    | r :: rs =>
      match c, r with
      | .element "p" a1 cs1, .element "p" a2 _ =>
        if a1 = a2 then mergeTwoP (.element "p" a1 cs1) r :: rs
        else .element "p" a1 cs1 :: r :: rs
      | _, _ => c :: r :: rs

mutual

/-- The paragraph-merge pass applied throughout the tree. -/
def mergeTree : Node → Node
  | .text s => .text s
  | .element t a cs => .element t a (mergeSibs (mergeTreeL cs))

/-- `mergeTree` over a list of children. -/
def mergeTreeL : List Node → List Node
  | [] => []
  | c :: cs => mergeTree c :: mergeTreeL cs

end

/-- Models `normalize_text_content` (lines 416-466): whitespace pass, then
empty-element pruning to a fixpoint, then the adjacent-paragraph merge. -/
def normalizeTextContent (n : Node) : Node :=
  mergeTree (pruneEmpties (wsPass n))

/-- The provenance block built by `add_llm_metadata` (lines 474-492): a
`section` with `role` and `aria-label` attributes, a source-URL paragraph
with a link, a retrieval-date paragraph, and a rule.  `now` stands for the
formatted `datetime.now().strftime(...)` string. -/
def metaSection (url now : String) : Node :=
  .element "section"
    [("role", "complementary"), ("aria-label", "Document Metadata")]
    [.element "p" []
       [.element "strong" [] [.text "Source URL: "],
        .element "a" [("href", url)] [.text url]],
     .element "p" []
       [.element "strong" [] [.text "Content Retrieved: "], .text now],
     .element "hr" [] []]

/-- Insert the metadata section before the body's first element child
(`soup.body.find(True)` always yields a direct child because pre-order
visits direct children first), followed immediately by the optional
synthesized heading (`meta_section.insert_after(h1)`); with no element
child, everything is appended at the end. -/
def insertMetaAndH1 (meta : Node) (h1s : List Node) : List Node → List Node
  | [] => meta :: h1s
  | c :: cs =>
    if isElem c then meta :: h1s ++ c :: cs
    else c :: insertMetaAndH1 meta h1s cs

mutual

/-- Rebuild the tree with the children of the first `body` element (in
pre-order) transformed by `f`; the flag reports whether a body was found. -/
def mapBody (f : List Node → List Node) : Node → Node × Bool
  | .text s => (.text s, false)
  | .element t a cs =>
    if t = "body" then (.element t a (f cs), true)
    else
      let r := mapBodyL f cs
      (.element t a r.1, r.2)

/-- `mapBody` over a list of children, stopping after the first body. -/
def mapBodyL (f : List Node → List Node) : List Node → List Node × Bool
  | [] => ([], false)
  | c :: cs =>
    let r := mapBody f c
    if r.2 then (r.1 :: cs, true)
    else
      let rs := mapBodyL f cs
      (c :: rs.1, rs.2)

end

/-- Models `add_llm_metadata` (lines 468-512): no body means no change;
otherwise the provenance section is inserted at the start of the body, and
an `h1` bearing the original title is inserted right after it when the body
has no `h1` and the title is non-empty (truthy).  An existing `h1` is left
untouched. -/
def addLlmMetadata (soup : Node) (url title now : String) : Node :=
  match findFirstTag soup "body" with
  | none => soup
  | some b =>
    let meta := metaSection url now
    let h1s :=
      if (findAllTag b "h1").isEmpty && title ≠ "" then
        [Node.element "h1" [] [Node.text title]]
      else []
    (mapBody (insertMetaAndH1 meta h1s) soup).1

/-- The placeholder paragraph inserted when the body is empty after cleaning
(lines 562-566). -/
def placeholderPara : Node :=
  .element "p" []
    [.element "em" []
      [.text "[URL Cleaner: No processable content found after filtering. The original page might have been dynamic, empty, or primarily non-textual.]"]]

/-- Models `soup.find("title")` and the title fallback of lines 521-522: the
title tag's `.string` is its unique text child; a missing title tag, a
multi-child title or an empty (falsy) string yields `Untitled Document`,
otherwise the string is stripped. -/
def origTitle (soup : Node) : String :=
  match findFirstTag soup "title" with
  | some (.element _ _ [Node.text s]) =>
    if s = "" then "Untitled Document" else trimStr s
  | _ => "Untitled Document"

/-- Models `soup.html.get("lang")` with Python truthiness (lines 536-539). -/
def htmlLang (soup : Node) : Option String :=
  match findFirstTag soup "html" with
  | some h =>
    match getAttr h "lang" with
    | some l => if l = "" then none else some l
    | none => none
  | none => none

/-- The cleaned body contents (lines 543-557): the located main element (its
children when the fallback chose the body element itself) is cleaned at
depth 0 with the depth bound 30 — gas 31 — and top-level fragment wrappers
are spliced. -/
def buildBodyKids (soup1 : Node) (url : String) : List Node :=
  let mainEl := extractMainContent soup1
  let srcs :=
    match mainEl with
    | .element "body" _ cs => cs
    | m => [m]
  ((srcs.map (cleanEl url 31)).filterMap id).flatMap spliceOne

/-- The pipeline stages of `clean_html_content` up to and including the
post-processors, before the metadata injection (lines 517-572): title
capture, undesirable stripping, main-content location, recursive cleaning
into the fresh skeleton (with the placeholder paragraph when the body came
out empty), then text normalization.  The skeleton mirrors line 535 with
the `lang` copied from the source or defaulted to `en`. -/
def preMetaTree (soup : Node) (url : String) : Node :=
  let title := origTitle soup
  let soup1 := stripUndesirables soup
  let kids0 := buildBodyKids soup1 url
  let kids := if kids0.isEmpty then [placeholderPara] else kids0
  let lang := (htmlLang soup1).getD "en"
  normalizeTextContent
    (.element "[document]" []
      [.element "html" [("lang", lang)]
        [.element "head" []
          [.element "meta" [("charset", "utf-8")] [],
           .element "title" [] [.text ("Cleaned: " ++ title)]],
         .element "body" [] kids]])

/-- The full cleaned output tree of `clean_html_content` for a parsed soup:
the pre-metadata tree with the provenance block injected.  The retrieval
clock read inside `add_llm_metadata` is the explicit `now` argument. -/
def cleanHtmlTree (soup : Node) (url now : String) : Node :=
  addLlmMetadata (preMetaTree soup url) url (origTitle soup) now

/-- Attribute serialization for the output model. -/
def serializeAttrs : List (String × String) → String
  | [] => ""
  | av :: rest => " " ++ av.1 ++ "=\"" ++ av.2 ++ "\"" ++ serializeAttrs rest

mutual

/-- A plain serializer standing for `prettify(formatter="minimal")`:
markup order and text contents are preserved; the pretty-printer's
indentation and entity escaping are abstracted. -/
def serializeNode : Node → String
  | .text s => s
  | .element t a cs =>
    "<" ++ t ++ serializeAttrs a ++ ">" ++ serializeL cs ++ "</" ++ t ++ ">"

/-- `serializeNode` over a list of children. -/
def serializeL : List Node → String
  | [] => ""
  | c :: cs => serializeNode c ++ serializeL cs

end

/-- Serialize a whole document: the `[document]` soup object prints its
children after the doctype. -/
def serializeDoc : Node → String
  | .element "[document]" _ cs => "<!DOCTYPE html>" ++ serializeL cs
  | n => serializeNode n

/-- Models `clean_html_content` (lines 515-597) at its exception boundary.
The lxml parse is external library code; its outcome is the `parsed`
argument.  The body of the function sits inside `try ... except Exception:
return None`, so a parse failure (the modelled raising step) yields `none`,
and a parsed soup is processed by the total pipeline and serialized; the
re-parse validation only logs and never blocks the output. -/
def cleanHtmlContent (parsed : Except String Node) (url now : String) :
    Option String :=
  match parsed with
  | .error _ => none
  | .ok soup => some (serializeDoc (cleanHtmlTree soup url now))

/-- The spec's allow-list closure predicate for a single element, written
from the spec's words: tag in the allow-listed tag set and every attribute
name in allow-list of the tag (modulo the case-folding the pipeline itself
applies). -/
def specElemOk : Node → Bool
  | .element t a _ =>
    llmOptimizedTags.contains (lowerStr t) &&
      a.all (fun av => (attrAllowFor (lowerStr t)).contains (lowerStr av.1))
  | .text _ => true

/-- The spec's allow-list closure over a whole output document: every
element below the soup object satisfies `specElemOk`. -/
def specAllowListClosed (doc : Node) : Bool :=
  (descElems doc).all specElemOk

/-- The invariant the Transformer actually establishes for a produced
element: either strict allow-list closure at this element, or it is an
attribute-less `div` fragment wrapper. -/
def elemOkB : Node → Bool
  | .element t a _ =>
    (llmOptimizedTags.contains (lowerStr t) &&
      a.all (fun av => (attrAllowFor (lowerStr t)).contains (lowerStr av.1)))
    || (t = "div" && a.isEmpty)
  | .text _ => true

/-- `elemOkB` at a node and at every element below it. -/
def allElemsOk (n : Node) : Bool :=
  elemOkB n && (descElems n).all elemOkB

/-- Does the document contain an element the classifier calls boilerplate? -/
def anyBoilerElem (doc : Node) : Bool :=
  (descElems doc).any isLikelyBoilerplate

/-- Well-formedness of a pipeline output document: the soup holds a single
`html` element containing a `head` (with a `title`) and a non-empty
`body`. -/
def isWellFormedDoc : Node → Bool
  | .element "[document]" _
      [.element "html" _ [.element "head" _ hs, .element "body" _ bs]] =>
    !bs.isEmpty && hs.any (tagIs "title")
  | _ => false

/-- A 260-character text run (no whitespace, no boilerplate phrase). -/
def aStr260 : String := ⟨List.replicate 260 'a'⟩

/-- A 150-character text run. -/
def aStr150 : String := ⟨List.replicate 150 'a'⟩

/-- A concrete parsed page: an article with 260 characters of text inside a
paragraph. -/
def soupA : Node :=
  .element "[document]" []
    [.element "html" []
      [.element "body" []
        [.element "article" [] [.element "p" [] [.text aStr260]]]]]

/-- A concrete parsed page whose article has visible text of length exactly
150. -/
def soupExact150 : Node :=
  .element "[document]" []
    [.element "html" []
      [.element "body" [] [.element "article" [] [.text aStr150]]]]

/-- A chain of `k` nested `div` elements wrapping a text leaf. -/
def divChain : Nat → Node
  | 0 => .text "hello"
  | k + 1 => .element "div" [] [divChain k]

/-- A concrete parsed page holding a chain of 31 nested divs. -/
def soupChain : Node :=
  .element "[document]" []
    [.element "html" [] [.element "body" [] [divChain 31]]]

/-- A concrete parsed page with two nested divs both carrying the same 260
characters of visible text: equal density scores. -/
def soupNested : Node :=
  .element "[document]" []
    [.element "body" []
      [.element "div" [] [.element "div" [] [.text aStr260]]]]

/-! Helper lemmas shared by the claim theorems. -/

theorem descElemsL_append (xs ys : List Node) :
    descElemsL (xs ++ ys) = descElemsL xs ++ descElemsL ys := by
  induction xs with
  | nil => simp [descElemsL]
  | cons c cs ih => simp [descElemsL, ih]

theorem allOk_descL (cs : List Node) :
    (descElemsL cs).all elemOkB = cs.all allElemsOk := by
  induction cs with
  | nil => rfl
  | cons c cs ih =>
    cases c with
    | text s =>
      simp [descElemsL, descElems, allElemsOk, elemOkB, ih]
    | element t a gs =>
      simp [descElemsL, descElems, allElemsOk, List.all_append, ih,
        Bool.and_assoc]

theorem spliceOne_allOk (k : Node) (h : allElemsOk k = true) :
    (spliceOne k).all allElemsOk = true := by
  cases k with
  | text s => simpa [spliceOne]
  | element t a cs =>
    by_cases hd : (t = "div" && a.isEmpty) = true
    · rw [spliceOne, if_pos hd]
      unfold allElemsOk at h
      rw [Bool.and_eq_true] at h
      have h2 := h.2
      rw [show descElems (Node.element t a cs) = descElemsL cs from rfl,
        allOk_descL] at h2
      exact h2
    · rw [spliceOne, if_neg hd]
      simpa

theorem cleanAttrs_names_allowed (url tagName : String)
    (attrs : List (String × String)) :
    ∀ av ∈ cleanAttrs url tagName attrs,
      (attrAllowFor tagName).contains (lowerStr av.1) = true := by
  intro av hav
  rw [cleanAttrs, List.mem_filterMap] at hav
  obtain ⟨a0, _, ha0⟩ := hav
  simp only [cleanAttr1] at ha0
  split at ha0
  · rename_i hallow
    split at ha0
    · split at ha0
      · split at ha0
        · exact absurd ha0 (by simp)
        · cases ha0; exact hallow
      · exact absurd ha0 (by simp)
    · split at ha0
      · split at ha0
        · cases ha0; exact hallow
        · exact absurd ha0 (by simp)
      · split at ha0
        · exact absurd ha0 (by simp)
        · cases ha0; exact hallow
  · exact absurd ha0 (by simp)

/-- C1, amended: every element produced by the Transformer
(`clean_element_recursively`, any gas, any input) either has an allow-listed
tag with every attribute name in the allow-list of that tag, or is an
attribute-less `div` fragment wrapper — and this holds below it as well. -/
theorem transformer_allowlist_invariant (url : String) :
    ∀ (g : Nat) (n r : Node), cleanEl url g n = some r → allElemsOk r = true := by
  intro g
  induction g with
  | zero => intro n r h; simp [cleanEl] at h
  | succ g ih =>
    intro n r h
    cases n with
    | text s =>
      simp only [cleanEl] at h
      split at h
      · exact absurd h (by simp)
      · cases h
        simp [allElemsOk, elemOkB, descElems]
    | element tag attrs cs =>
      have hkid : ∀ k ∈ (cs.map (cleanEl url g)).filterMap id,
          allElemsOk k = true := by
        intro k hk
        rw [List.mem_filterMap] at hk
        obtain ⟨o, ho, hok⟩ := hk
        rw [List.mem_map] at ho
        obtain ⟨c, _, hco⟩ := ho
        subst hco
        exact ih c k hok
      simp only [cleanEl] at h
      split at h
      · split at h
        · exact absurd h (by simp)
        · cases h
          unfold allElemsOk
          rw [Bool.and_eq_true]
          refine ⟨by simp [elemOkB], ?_⟩
          rw [show descElems
              (Node.element "div" [] ((cs.map (cleanEl url g)).filterMap id)) =
              descElemsL ((cs.map (cleanEl url g)).filterMap id) from rfl,
            allOk_descL, List.all_eq_true]
          exact hkid
      · rename_i hallow
        split at h
        · exact absurd h (by simp)
        · cases h
          unfold allElemsOk
          rw [Bool.and_eq_true]
          have hc : llmOptimizedTags.contains (lowerStr tag) = true := by
            cases hb : llmOptimizedTags.contains (lowerStr tag) with
            | true => rfl
            | false => exact absurd (by rw [hb]; rfl) hallow
          refine ⟨?_, ?_⟩
          · have hattrs : (cleanAttrs url (lowerStr tag) attrs).all
                (fun av =>
                  (attrAllowFor (lowerStr tag)).contains (lowerStr av.1)) =
                  true := by
              rw [List.all_eq_true]
              exact cleanAttrs_names_allowed url (lowerStr tag) attrs
            simp only [elemOkB]
            rw [hc, hattrs]
            rfl
          · rw [show descElems
                (Node.element tag (cleanAttrs url (lowerStr tag) attrs)
                  (((cs.map (cleanEl url g)).filterMap id).flatMap spliceOne)) =
                descElemsL
                  (((cs.map (cleanEl url g)).filterMap id).flatMap spliceOne)
                from rfl,
              allOk_descL, List.all_eq_true]
            intro k hk
            rw [List.mem_flatMap] at hk
            obtain ⟨x, hx, hkx⟩ := hk
            have hs := spliceOne_allOk x (hkid x hx)
            rw [List.all_eq_true] at hs
            exact hs k hkx

/-- C1, witness for the amended invariant: a cleaned paragraph satisfies it. -/
theorem transformer_allowlist_invariant_witness :
    allElemsOk (Node.element "p" [] [Node.text "hi"]) = true :=
  transformer_allowlist_invariant "https://e.com/" 31
    (Node.element "p" [] [Node.text "hi"])
    (Node.element "p" [] [Node.text "hi"]) (by rfl)

/-- C1, counterexample: the claim's allow-list closure fails on a pipeline
output — the injected metadata `section` carries `role` and `aria-label`
attributes outside the allow-list (and the skeleton's `meta` tag is not
allow-listed either). -/
theorem allowlist_closure_fails :
    specAllowListClosed
      (cleanHtmlTree soupA "https://e.com/p" "2025-01-01 00:00:00 UTC") =
      false := by decide

/-- First-success extraction for `List.findSome?`. -/
theorem findSome_mem {α β : Type} (f : α → Option β) (b : β) :
    ∀ l : List α, l.findSome? f = some b → ∃ a ∈ l, f a = some b := by
  intro l
  induction l with
  | nil => intro h; simp [List.findSome?] at h
  | cons x xs ih =>
    intro h
    rw [List.findSome?_cons] at h
    cases hx : f x with
    | some v =>
      rw [hx] at h; simp at h
      exact ⟨x, List.mem_cons_self x xs, by rw [hx, h]⟩
    | none =>
      rw [hx] at h; simp at h
      obtain ⟨a, ha, hfa⟩ := ih h
      exact ⟨a, List.mem_cons_of_mem x ha, hfa⟩

/-- A candidate bookkeeping step only keeps previous entries or appends the
new one. -/
theorem stepCand_mem (cands : List CandEntry) (c e : CandEntry)
    (h : e ∈ stepCand cands c) : e ∈ cands ∨ e = c := by
  simp only [stepCand] at h
  split at h
  · exact Or.inl h
  · split at h
    · exact Or.inl h
    · rw [List.mem_append] at h
      rcases h with h | h
      · exact Or.inl (List.mem_of_mem_filter h)
      · simp at h; exact Or.inr h

/-- Strategy 2 only proposes non-boilerplate containers. -/
theorem candEligible_not_boiler (p : List Nat) (n : Node) (c : CandEntry)
    (h : candEligible p n = some c) : isLikelyBoilerplate c.node = false := by
  cases n with
  | text s => simp [candEligible] at h
  | element t a cs =>
    simp only [candEligible] at h
    split at h
    · split at h
      · exact absurd h (by simp)
      · rename_i hb
        split at h
        · exact absurd h (by simp)
        · cases h
          simpa using hb
    · exact absurd h (by simp)

/-- Every candidate retained by the Strategy 2 scan is non-boilerplate. -/
theorem candScan_not_boiler (soup : Node) :
    ∀ e ∈ candScan soup, isLikelyBoilerplate e.node = false := by
  rw [candScan]
  generalize descWithPaths soup = L
  suffices h : ∀ (L : List (List Nat × Node)) (acc : List CandEntry),
      (∀ e ∈ acc, isLikelyBoilerplate e.node = false) →
      ∀ e ∈ L.foldl (fun cands pn =>
        match candEligible pn.1 pn.2 with
        | some c => stepCand cands c
        | none => cands) acc,
      isLikelyBoilerplate e.node = false by
    exact h L [] (by simp)
  intro L
  induction L with
  | nil => intro acc hacc e he; exact hacc e he
  | cons pn rest ih =>
    intro acc hacc e he
    rw [List.foldl_cons] at he
    refine ih _ ?_ e he
    intro x hx
    cases hc : candEligible pn.1 pn.2 with
    | none => rw [hc] at hx; exact hacc x hx
    | some c =>
      rw [hc] at hx
      rcases stepCand_mem _ _ _ hx with hm | hm
      · exact hacc x hm
      · subst hm
        exact candEligible_not_boiler _ _ _ hc

/-- The running maximum of the candidate fold is one of the candidates. -/
theorem foldl_pick_mem (l : List CandEntry) :
    ∀ b : CandEntry,
      l.foldl (fun b x => if sGt x b then x else b) b ∈ b :: l := by
  induction l with
  | nil => intro b; simp
  | cons x xs ih =>
    intro b
    rw [List.foldl_cons]
    have h := ih (if sGt x b then x else b)
    rcases List.mem_cons.mp h with h1 | h1
    · rw [h1]
      by_cases hx : sGt x b = true
      · simp [hx]
      · simp [hx]
    · exact List.mem_cons_of_mem _ (List.mem_cons_of_mem _ h1)

/-- `bestCand` returns a member of the candidate list. -/
theorem bestCand_mem (l : List CandEntry) (m : CandEntry)
    (h : bestCand l = some m) : m ∈ l := by
  cases l with
  | nil => simp [bestCand] at h
  | cons c cs =>
    simp only [bestCand] at h
    cases h
    exact foldl_pick_mem cs c

/-- C2, amended: the Locator never selects a boilerplate-classified node —
a Strategy 1 (selector) winner and a Strategy 2 (density) winner always
evaluate to false under `is_likely_boilerplate`.  The classifier is not
re-applied after location, so output documents can still contain
boilerplate-classified nodes (the injected metadata section is one). -/
theorem locator_skips_boilerplate :
    (∀ soup c, phaseA soup = some c → isLikelyBoilerplate c = false) ∧
    (∀ soup c, bestCand (candScan soup) = some c →
      isLikelyBoilerplate c.node = false) := by
  constructor
  · intro soup c h
    rw [phaseA] at h
    obtain ⟨sel, _, hsel⟩ := findSome_mem _ _ _ h
    simp only [phaseAStep] at hsel
    split at hsel
    · split at hsel
      · rename_i hcond
        cases hsel
        rw [Bool.and_eq_true] at hcond
        simpa using hcond.2
      · exact absurd hsel (by simp)
    · exact absurd hsel (by simp)
  · intro soup c h
    exact candScan_not_boiler soup c (bestCand_mem _ _ h)

/-- C2, witness: on the concrete page the selector phase picks the article,
and the theorem yields that it is not boilerplate. -/
theorem locator_skips_boilerplate_witness :
    isLikelyBoilerplate
      (Node.element "article" [] [Node.element "p" [] [Node.text aStr260]]) =
      false :=
  locator_skips_boilerplate.1 soupA
    (Node.element "article" [] [Node.element "p" [] [Node.text aStr260]])
    (by rfl)

/-- C2, counterexample: a pipeline output contains a node the Boilerplate
Classifier evaluates to true on — the injected metadata section, whose
`role="complementary"` matches a noise pattern. -/
theorem boilerplate_in_output :
    anyBoilerElem
      (cleanHtmlTree soupA "https://e.com/q" "2025-02-02 00:00:00 UTC") =
      true := by decide

/-- C3, counterexample: an anchor whose href resolves to a non-http scheme
and which has no children is not retained — the Transformer returns nothing
for it, against the claim's "the anchor element itself is retained". -/
theorem childless_anchor_dropped :
    cleanEl "https://e.com/" 31
      (Node.element "a" [("href", "mailto:x@y.z")] []) = none := by rfl

/-- C3, amended: every href the Transformer retains on an anchor is the
source value, stripped, resolved against the document URL, with scheme http
or https; rejecting an href only drops that attribute — the element's
retention is decided solely by its cleaned children (it is dropped exactly
when they are empty, whatever its attributes). -/
theorem href_policy_amended :
    (∀ (url : String) (attrs : List (String × String)) (nm v : String),
      (nm, v) ∈ cleanAttrs url "a" attrs →
      ∃ v0, (nm, v0) ∈ attrs ∧ v = urljoin url (trimStr v0) ∧
        (urlScheme v = "http" ∨ urlScheme v = "https")) ∧
    (∀ (url : String) (g : Nat) (attrs : List (String × String))
        (cs : List Node),
      cleanEl url (g + 1) (Node.element "a" attrs cs) = none ↔
        cleanKids url g cs = []) ∧
    (∀ (url : String) (g : Nat) (a1 a2 : List (String × String))
        (cs : List Node),
      (cleanEl url (g + 1) (Node.element "a" a1 cs)).isSome =
        (cleanEl url (g + 1) (Node.element "a" a2 cs)).isSome) := by
  refine ⟨?_, ?_, ?_⟩
  · intro url attrs nm v hmem
    rw [cleanAttrs, List.mem_filterMap] at hmem
    obtain ⟨a0, ha0mem, ha0⟩ := hmem
    simp only [cleanAttr1] at ha0
    split at ha0
    · rename_i hallow
      have hhref : lowerStr a0.1 = "href" := by
        rw [show attrAllowFor "a" = ["href"] from rfl] at hallow
        simpa using hallow
      split at ha0
      · split at ha0
        · rename_i hscheme
          split at ha0
          · exact absurd ha0 (by simp)
          · simp only [Option.some.injEq, Prod.mk.injEq] at ha0
            obtain ⟨h1, h2⟩ := ha0
            refine ⟨a0.2, ?_, h2.symm, ?_⟩
            · rw [show (nm, a0.2) = a0 by rw [← h1]]
              exact ha0mem
            · rw [← h2]
              simpa using hscheme
        · exact absurd ha0 (by simp)
      · rename_i hnothref
        split at ha0
        · rename_i hclass
          exact absurd hclass (by simp)
        · split at ha0
          · exact absurd ha0 (by simp)
          · exact absurd (by rw [hhref]; rfl) hnothref
    · exact absurd ha0 (by simp)
  · intro url g attrs cs
    have hbr : (!(["br", "hr"].contains (lowerStr "a"))) = true := by rfl
    simp only [cleanEl]
    rw [show (!(llmOptimizedTags.contains (lowerStr "a"))) = false from rfl]
    simp only [Bool.false_eq_true, if_false]
    rw [show ((cs.map (cleanEl url g)).filterMap id).flatMap spliceOne =
      cleanKids url g cs from rfl]
    rw [hbr, Bool.and_true]
    cases hk : (cleanKids url g cs).isEmpty with
    | true =>
      rw [List.isEmpty_iff] at hk
      simp [hk]
    | false =>
      have hne : cleanKids url g cs ≠ [] := by
        intro hc
        rw [hc] at hk
        simp at hk
      simp [hne]
  · intro url g a1 a2 cs
    have hbr : (!(["br", "hr"].contains (lowerStr "a"))) = true := by rfl
    simp only [cleanEl]
    rw [show (!(llmOptimizedTags.contains (lowerStr "a"))) = false from rfl]
    simp only [Bool.false_eq_true, if_false]
    rw [hbr, Bool.and_true]
    cases hk : (((cs.map (cleanEl url g)).filterMap id).flatMap
        spliceOne).isEmpty with
    | true => rfl
    | false => rfl

/-- C3, witness: on page `https://e.com/y/` the source href `/x` is retained
as the absolute `https://e.com/x` with scheme https. -/
theorem href_policy_amended_witness :
    ∃ v0, ("href", v0) ∈ [("href", "/x")] ∧
      "https://e.com/x" = urljoin "https://e.com/y/" (trimStr v0) ∧
      (urlScheme "https://e.com/x" = "http" ∨
        urlScheme "https://e.com/x" = "https") :=
  href_policy_amended.1 "https://e.com/y/" [("href", "/x")] "href"
    "https://e.com/x" (by decide)

/-- C4: every node past the recursion bound is truncated (the Transformer
contributes nothing for it rather than failing), and on the chain of 31
nested divs wrapping text the chain cleans to nothing while the pipeline
still completes with a well-formed document. -/
theorem depth_bound_truncates :
    (∀ (url : String) (maxD d : Nat) (n : Node),
      maxD < d → cleanElementAt url maxD d n = none) ∧
    cleanEl "https://e.com/p" 31 (divChain 31) = none ∧
    isWellFormedDoc
      (cleanHtmlTree soupChain "https://e.com/p" "2025-03-03 00:00:00 UTC") =
      true := by
  refine ⟨?_, by rfl, by decide⟩
  intro url maxD d n hd
  rw [cleanElementAt, Nat.sub_eq_zero_of_le (by omega)]
  cases n <;> rfl

/-- C4, witness: a text node at depth 31 under the default bound 30 is
truncated. -/
theorem depth_bound_truncates_witness :
    cleanElementAt "https://e.com/p" 30 31 (Node.text "x") = none :=
  depth_bound_truncates.1 "https://e.com/p" 30 31 (Node.text "x") (by decide)

/-- C5, counterexample: a childless anchor whose http href is retained by
the attribute policy — zero children but one attribute — is nonetheless
discarded by the Transformer, against the claim's "discarded only when zero
children and zero attributes". -/
theorem attributed_empty_discarded :
    cleanAttrs "https://e.com/" "a" [("href", "https://x.org/p")] =
      [("href", "https://x.org/p")] ∧
    cleanEl "https://e.com/" 31
      (Node.element "a" [("href", "https://x.org/p")] []) = none :=
  ⟨by decide, by rfl⟩

/-- C5, amended: an allow-listed element is discarded exactly when its
cleaned contents are empty and its tag is not void (`br`/`hr`) — the
attributes play no role in the discard decision. -/
theorem empty_discard_amended :
    ∀ (url : String) (g : Nat) (tag : String)
      (attrs : List (String × String)) (cs : List Node),
      llmOptimizedTags.contains (lowerStr tag) = true →
      (cleanEl url (g + 1) (Node.element tag attrs cs) = none ↔
        (["br", "hr"].contains (lowerStr tag) = false ∧
          cleanKids url g cs = [])) := by
  intro url g tag attrs cs hc
  simp only [cleanEl]
  rw [show (!(llmOptimizedTags.contains (lowerStr tag))) = false by
    rw [hc]; rfl]
  simp only [Bool.false_eq_true, if_false]
  rw [show ((cs.map (cleanEl url g)).filterMap id).flatMap spliceOne =
    cleanKids url g cs from rfl]
  cases hbr : ["br", "hr"].contains (lowerStr tag) with
  | true =>
    simp only [hbr, Bool.not_true, Bool.and_false]
    simp
  | false =>
    simp only [hbr, Bool.not_false, Bool.and_true]
    cases hk : (cleanKids url g cs).isEmpty with
    | true =>
      rw [List.isEmpty_iff] at hk
      simp [hk]
    | false =>
      have hne : cleanKids url g cs ≠ [] := by
        intro h0
        rw [h0] at hk
        simp at hk
      simp [hne]

/-- C5, witness: a childless paragraph is discarded; a childless rule is
kept. -/
theorem empty_discard_amended_witness :
    cleanEl "https://e.com/" 31 (Node.element "p" [("id", "z")] []) = none :=
  (empty_discard_amended "https://e.com/" 30 "p" [("id", "z")] []
    (by decide)).mpr ⟨by decide, by rfl⟩

/-- C6, counterexample: an article matched by the selector list with visible
text length exactly `MIN_MAIN_CONTENT_LENGTH = 150` and not boilerplate is
rejected by the selector phase — the source compares strictly, so the
claim's "exactly 150 wins" fails. -/
theorem exact_150_rejected :
    selectOne (Sel.tagSel "article") soupExact150 =
      some (Node.element "article" [] [Node.text aStr150]) ∧
    (getTextStrip (Node.element "article" [] [Node.text aStr150])).length =
      minMainContentLength ∧
    isLikelyBoilerplate (Node.element "article" [] [Node.text aStr150]) =
      false ∧
    phaseA soupExact150 = none :=
  ⟨by rfl, by decide, by decide, by rfl⟩

/-- C6, amended: a selector-phase match is accepted as content root exactly
when its visible text length is strictly greater than
`MIN_MAIN_CONTENT_LENGTH = 150` and it is not classified boilerplate; the
first selector in the fixed order with an accepted match wins. -/
theorem phase_a_threshold_amended :
    ∀ (soup : Node) (sel : Sel) (c : Node),
      phaseAStep soup sel = some c ↔
        (selectOne sel soup = some c ∧
          minMainContentLength < (getTextStrip c).length ∧
          isLikelyBoilerplate c = false) := by
  intro soup sel c
  constructor
  · intro h
    simp only [phaseAStep] at h
    split at h
    · rename_i cand hsel
      split at h
      · rename_i hcond
        cases h
        rw [Bool.and_eq_true] at hcond
        refine ⟨hsel, ?_, ?_⟩
        · simpa using hcond.1
        · simpa using hcond.2
      · exact absurd h (by simp)
    · exact absurd h (by simp)
  · rintro ⟨hsel, hlen, hboil⟩
    have hcond : (decide (minMainContentLength < (getTextStrip c).length) &&
        !(isLikelyBoilerplate c)) = true := by
      rw [hboil]
      simpa using hlen
    simp only [phaseAStep, hsel, hcond, if_true]

/-- C7, counterexample: after the density scan on a page with a div nested
in an equally-scoring div, both the ancestor and its descendant remain
retained — the claim's "no two retained candidates stand in
ancestor-descendant relation" fails, and the descendant is not discarded on
the tie. -/
theorem nested_candidates_retained :
    (candScan soupNested).map (fun e => (e.path, e.num, e.den)) =
      [([0, 0], 260, 1), ([0, 0, 0], 260, 1)] ∧
    properAncestor [0, 0] [0, 0, 0] = true :=
  ⟨by decide, by rfl⟩

/-- Pointwise congruence for `List.any` under membership. -/
theorem any_congr_mem {α : Type} (l : List α) (p q : α → Bool)
    (h : ∀ a ∈ l, p a = q a) : l.any p = l.any q := by
  induction l with
  | nil => rfl
  | cons x xs ih =>
    simp only [List.any_cons]
    rw [h x (List.mem_cons_self x xs),
      ih (fun a ha => h a (List.mem_cons_of_mem x ha))]

/-- C7, amended: when no retained candidate is a descendant of the incoming
container (always true in the pre-order scan), a bookkeeping step never
removes a retained candidate: it either refuses the container or appends it;
and when additionally no retained ancestor beats the container by the 1.10
ratio, the container is appended — so an ancestor and its descendant are
both retained. -/
theorem pruning_amended :
    ∀ (cands : List CandEntry) (c : CandEntry),
      (∀ e ∈ cands, properAncestor c.path e.path = false) →
      ((stepCand cands c = cands ∨ stepCand cands c = cands ++ [c]) ∧
        ((∀ e ∈ cands,
            (properAncestor e.path c.path && sGtRatio e c) = false) →
          stepCand cands c = cands ++ [c])) := by
  intro cands c hnd
  have hfilter : (cands.filter fun e =>
      !(properAncestor c.path e.path && !(sLtRatio c e))) = cands := by
    apply List.filter_eq_self.mpr
    intro e he
    rw [hnd e he]
    rfl
  have hblocked : (cands.any fun e =>
      (properAncestor c.path e.path && sLtRatio c e) ||
      (!(properAncestor c.path e.path) && properAncestor e.path c.path &&
        sGtRatio e c)) =
      (cands.any fun e => properAncestor e.path c.path && sGtRatio e c) := by
    apply any_congr_mem
    intro e he
    rw [hnd e he]
    simp
  constructor
  · cases hA : (cands.any fun e =>
        properAncestor e.path c.path && sGtRatio e c) with
    | true =>
      left
      simp only [stepCand]
      rw [hA]
      rfl
    | false =>
      right
      simp only [stepCand]
      rw [hA, hblocked, hA, hfilter]
      rfl
  · intro hall
    have hA : (cands.any fun e =>
        properAncestor e.path c.path && sGtRatio e c) = false := by
      cases hx : (cands.any fun e =>
          properAncestor e.path c.path && sGtRatio e c) with
      | false => rfl
      | true =>
        obtain ⟨e, he, hpe⟩ := List.any_eq_true.mp hx
        rw [hall e he] at hpe
        exact absurd hpe (by simp)
    simp only [stepCand]
    rw [hA, hblocked, hA, hfilter]
    rfl

/-- C7, witness: a descendant with a score equal to its retained ancestor's
is appended while the ancestor stays. -/
theorem pruning_amended_witness :
    stepCand [⟨[0], Node.text "x", 200, 1⟩] ⟨[0, 0], Node.text "y", 200, 1⟩ =
      [⟨[0], Node.text "x", 200, 1⟩, ⟨[0, 0], Node.text "y", 200, 1⟩] :=
  (pruning_amended [⟨[0], Node.text "x", 200, 1⟩]
    ⟨[0, 0], Node.text "y", 200, 1⟩ (by decide)).2 (by decide)

/-- C8, counterexample: a text node inside a pre context but under an
intervening child element is changed by the whitespace pass — the claim's
"preserved at any nesting depth" fails (only direct children of
pre/code/style/script are preserved). -/
theorem pre_context_normalized :
    stringsOf (wsPass (Node.element "pre" []
      [Node.element "b" [] [Node.text "  a  b "]])) ≠
      stringsOf (Node.element "pre" []
        [Node.element "b" [] [Node.text "  a  b "]]) := by decide

/-- C8, amended: the whitespace pass keeps a text node verbatim exactly when
its direct parent is a pre/code/style/script element; under any other parent
the text is collapsed and trimmed (and kept only when non-empty). -/
theorem whitespace_frame_amended :
    (∀ (t : String) (a : List (String × String)) (cs : List Node)
        (s : String),
      preserveParents.contains t = true → Node.text s ∈ cs →
      Node.text s ∈ nodeChildren (wsPass (Node.element t a cs))) ∧
    (∀ (t : String) (a : List (String × String)) (cs : List Node)
        (s : String),
      preserveParents.contains t = false → Node.text s ∈ cs →
      trimStr (collapseWs s) ≠ "" →
      Node.text (trimStr (collapseWs s)) ∈
        nodeChildren (wsPass (Node.element t a cs))) := by
  constructor
  · intro t a cs s ht hmem
    rw [show nodeChildren (wsPass (Node.element t a cs)) = wsChildren t cs
      from rfl]
    revert hmem
    induction cs with
    | nil => intro hmem; cases hmem
    | cons c rest ih =>
      intro hmem
      rcases List.mem_cons.mp hmem with h1 | h1
      · subst h1
        have ht2 : t ∈ preserveParents := by simpa using ht
        simp only [wsChildren]
        simp [ht2]
      · cases c with
        | text s2 =>
          simp only [wsChildren]
          exact List.mem_append_right _ (ih h1)
        | element t2 a2 cs2 =>
          simp only [wsChildren]
          exact List.mem_cons_of_mem _ (ih h1)
  · intro t a cs s ht hmem hne
    rw [show nodeChildren (wsPass (Node.element t a cs)) = wsChildren t cs
      from rfl]
    revert hmem
    induction cs with
    | nil => intro hmem; cases hmem
    | cons c rest ih =>
      intro hmem
      rcases List.mem_cons.mp hmem with h1 | h1
      · subst h1
        have ht2 : t ∉ preserveParents := by simpa using ht
        simp only [wsChildren]
        simp [ht2, hne]
      · cases c with
        | text s2 =>
          simp only [wsChildren]
          exact List.mem_append_right _ (ih h1)
        | element t2 a2 cs2 =>
          simp only [wsChildren]
          exact List.mem_cons_of_mem _ (ih h1)

/-- C8, witness: a text node directly under `pre` is kept verbatim. -/
theorem whitespace_frame_amended_witness :
    Node.text " x " ∈
      nodeChildren (wsPass (Node.element "pre" [] [Node.text " x "])) :=
  whitespace_frame_amended.1 "pre" [] [Node.text " x "] " x " (by rfl)
    (List.Mem.head _)

/-- C9, counterexample: with identical html and url, two invocations at
different clock readings return different output text — the retrieval
timestamp is embedded in the document, so `clean_html_content` is not a
pure function of (html, url) alone. -/
theorem output_time_dependent :
    cleanHtmlContent (.ok soupA) "https://e.com/p"
        "2025-01-01 00:00:00 UTC" ≠
      cleanHtmlContent (.ok soupA) "https://e.com/p"
        "2025-01-02 00:00:00 UTC" := by decide

/-- C9, amended: the output is a deterministic function of html, url and the
retrieval clock reading (equal readings give identical output), and the
clock enters only through the metadata injector — every stage before it is
time-independent (`preMetaTree` takes no time argument). -/
theorem determinism_given_time :
    (∀ (parsed : Except String Node) (url t1 t2 : String),
      t1 = t2 →
      cleanHtmlContent parsed url t1 = cleanHtmlContent parsed url t2) ∧
    (∀ (soup : Node) (url t : String),
      cleanHtmlContent (.ok soup) url t =
        some (serializeDoc
          (addLlmMetadata (preMetaTree soup url) url (origTitle soup) t))) := by
  constructor
  · intro parsed url t1 t2 h
    rw [h]
  · intro soup url t
    rfl

/-- C9, witness: equal clock readings give identical output on a concrete
page. -/
theorem determinism_given_time_witness :
    cleanHtmlContent (.ok soupA) "https://e.com/p"
        "2025-01-01 00:00:00 UTC" =
      cleanHtmlContent (.ok soupA) "https://e.com/p"
        "2025-01-01 00:00:00 UTC" :=
  determinism_given_time.1 (.ok soupA) "https://e.com/p" _ _ rfl

/-- C10: total failure containment at the public entry point — a parse
failure (the raising step of the embedded pipeline, caught by the source's
catch-all handler) yields the `None` failure result, and every successfully
parsed input yields a cleaned string; the result is always a cleaned string
or `None`, and the embedded pipeline is a total function, so no exception
escapes. -/
theorem failure_containment :
    (∀ (e url t : String), cleanHtmlContent (.error e) url t = none) ∧
    (∀ (soup : Node) (url t : String),
      cleanHtmlContent (.ok soup) url t =
        some (serializeDoc (cleanHtmlTree soup url t))) :=
  ⟨fun _ _ _ => rfl, fun _ _ _ => rfl⟩

end UrlCleaner
